import Mathlib

/-!
Shallow embedding of the lyricsify core (apsknight/lyricsify) and proofs of
the specification's claims about it.

The embedding follows `src/error.rs`, `src/spotify_client.rs`,
`src/lyrics_fetcher.rs` and `src/app_core.rs`.  External effects (the remote
Spotify and lyrics endpoints, the keychain, the event channel, the clock) are
passed in explicitly: remote calls become oracle arguments giving each call's
outcome, the keychain becomes an `Option` cell threaded through the state, and
timestamps become integers (seconds) or naturals (logical ticks).
-/

/-! ## Error type (`src/error.rs`) -/

/-- The `LyricsifyError` enum of `src/error.rs`.  The wrapped foreign error
types (`reqwest::Error`, `serde_json::Error`, `keyring::Error`,
`std::io::Error`) are represented by their display strings. -/
inductive LyricsifyError where
  | AuthenticationFailed (msg : String)
  | SpotifyApiError (msg : String)
  | LyricsFetchError (msg : String)
  | UIError (msg : String)
  | ConfigError (msg : String)
  | NetworkError (msg : String)
  | SerializationError (msg : String)
  | KeyringError (msg : String)
  | IoError (msg : String)
deriving DecidableEq, Repr

/-- Display form of a `LyricsifyError`, as generated by the `#[error("...")]`
attributes in `src/error.rs` (`e.to_string()` in the Rust code). -/
def LyricsifyError.toMessage : LyricsifyError → String
  | .AuthenticationFailed s => "Spotify authentication failed: " ++ s
  | .SpotifyApiError s => "Spotify API error: " ++ s
  | .LyricsFetchError s => "Lyrics fetch failed: " ++ s
  | .UIError s => "UI error: " ++ s
  | .ConfigError s => "Configuration error: " ++ s
  | .NetworkError s => "Network error: " ++ s
  | .SerializationError s => "Serialization error: " ++ s
  | .KeyringError s => "Keyring error: " ++ s
  | .IoError s => "IO error: " ++ s

/-! ## Tokens and validity (`src/spotify_client.rs`) -/

/-- The rspotify `Token` as the code uses it: access token, optional refresh
token, optional expiry (`chrono::DateTime<Utc>`, modelled as an integer number
of seconds), and a set of scopes (modelled as a list). -/
structure Token where
  access_token : String
  refresh_token : Option String
  expires_at : Option Int
  scopes : List String
deriving DecidableEq, Repr

/-- The `StoredToken` struct serialized into the keychain
(`src/spotify_client.rs`, lines 39-45). -/
structure StoredToken where
  access_token : String
  refresh_token : Option String
  expires_at : Option Int
  scopes : List String
deriving DecidableEq, Repr

/-- `SpotifyClient::is_token_valid` (`src/spotify_client.rs`, lines 262-272):
given the current token (`get_token()`), returns `expires_at > now + 60s` when
the token exists and carries an expiry, and `false` in every other case
(no token, or a token without `expires_at`). -/
def is_token_valid (token : Option Token) (now : Int) : Bool :=
  match token with
  | some t =>
    match t.expires_at with
    | some expiresAt => decide (expiresAt > now + 60)
    | none => false
  | none => false

/-- The serialization performed by `SpotifyClient::save_token_to_keychain`
(`src/spotify_client.rs`, lines 202-225): the stored form of a token. -/
def storedOfToken (t : Token) : StoredToken :=
  { access_token := t.access_token
    refresh_token := t.refresh_token
    expires_at := t.expires_at
    scopes := t.scopes }

/-- The authentication-relevant state of `SpotifyClient`: the in-memory
rspotify token cell and the keychain entry
(`com.lyricsify.spotify` / `spotify_token`). -/
structure AuthState where
  token : Option Token
  keychain : Option StoredToken
deriving DecidableEq, Repr

/-- `SpotifyClient::refresh_token` (`src/spotify_client.rs`, lines 298-330).
`refreshResult` is the outcome of the refresh exchange triggered through
`self.client.current_user()` (rspotify refreshes the token internally when it
succeeds; the new token is the value carried by `ok`).  On success the new
token is saved to the keychain (`save_token_to_keychain`); on failure the
keychain entry is deleted (`clear_token_from_keychain`, its own errors
ignored by `let _ = ...`) and the call fails with `AuthenticationFailed`. -/
def refresh_token (st : AuthState) (refreshResult : Except String Token) :
    Except LyricsifyError Unit × AuthState :=
  match st.token with
  | none => (.error (.AuthenticationFailed "No token available to refresh"), st)
  | some _ =>
    match refreshResult with
    | .ok newToken =>
      (.ok (), { token := some newToken, keychain := some (storedOfToken newToken) })
    | .error e =>
      (.error (.AuthenticationFailed
          ("Token refresh failed, re-authentication required: " ++ e)),
        { st with keychain := none })

/-! ## Tracks and the currently-playing query (`src/spotify_client.rs`) -/

/-- An artist of a full track; the code only reads its `name`. -/
structure SimplifiedArtist where
  name : String
deriving DecidableEq, Repr

/-- The fields of rspotify's `FullTrack` that `TrackInfo::from_full_track`
reads: optional id (already rendered to a string), name, artists, and the
duration in milliseconds (`chrono::Duration::num_milliseconds`, an `i64`). -/
structure FullTrack where
  id : Option String
  name : String
  artists : List SimplifiedArtist
  duration : Int
deriving DecidableEq, Repr

/-- `TrackInfo` (`src/spotify_client.rs`, lines 18-24). -/
structure TrackInfo where
  id : String
  name : String
  artists : List String
  duration_ms : Nat
deriving DecidableEq, Repr

/-- `TrackInfo::from_full_track` (`src/spotify_client.rs`, lines 28-35).
The `as u64` cast of the `i64` millisecond count wraps modulo `2 ^ 64`. -/
def TrackInfo.from_full_track (track : FullTrack) : TrackInfo :=
  { id := track.id.getD ""
    name := track.name
    artists := track.artists.map (fun a => a.name)
    duration_ms := (track.duration % (2 ^ 64 : Int)).toNat }

/-- A playable item of the currently-playing response
(`rspotify::model::PlayableItem`). -/
inductive PlayableItem where
  | track (t : FullTrack)
  | episode
deriving DecidableEq, Repr

/-- The currently-playing context: the response's optional `item`. -/
structure CurrentlyPlayingContext where
  item : Option PlayableItem
deriving DecidableEq, Repr

/-- How both `get_current_track` and `get_current_track_with_retry` turn a
successful `current_playing` response into an `Option TrackInfo`: a track item
becomes its `TrackInfo`, an episode (podcast) and an absent item or context
become `none` (`src/spotify_client.rs`, lines 459-474). -/
def interpretPlaying : Option CurrentlyPlayingContext → Option TrackInfo
  | some playing =>
    match playing.item with
    | some (.track t) => some (TrackInfo.from_full_track t)
    | some .episode => none
    | none => none
  | none => none

/-- The retry delay table of `get_current_track_with_retry`
(`src/spotify_client.rs`, line 454): `let retry_delays = [1, 2, 4];`. -/
def retryDelays : List Nat := [1, 2, 4]

/-- The retry loop of `SpotifyClient::get_current_track_with_retry`
(`src/spotify_client.rs`, lines 457-490).  `oracle n` is the outcome of the
`n`-th `current_playing` call (errors as display strings).  Returns the
result, the list of sleeps actually performed (in seconds), and the number of
attempts made.  `delays` is the not-yet-consumed suffix of `retryDelays`, so
`restDelays.isEmpty` is the code's `attempt < retry_delays.len() - 1` test
negated (no sleep after the final attempt). -/
def retryGo (oracle : Nat → Except String (Option CurrentlyPlayingContext)) :
    Nat → List Nat → Option String → List Nat →
    Except LyricsifyError (Option TrackInfo) × List Nat × Nat
  | attempt, [], lastError, sleeps =>
    (.error (.SpotifyApiError
        ("Failed to get current track after " ++ toString retryDelays.length
          ++ " attempts: "
          ++ (match lastError with | some e => e | none => "Unknown error"))),
      sleeps, attempt)
  | attempt, delay :: restDelays, _lastError, sleeps =>
    match oracle attempt with
    | .ok currentlyPlaying => (.ok (interpretPlaying currentlyPlaying), sleeps, attempt + 1)
    | .error e =>
      retryGo oracle (attempt + 1) restDelays (some e)
        (if restDelays.isEmpty then sleeps else sleeps ++ [delay])

/-- `SpotifyClient::get_current_track_with_retry` (`src/spotify_client.rs`,
lines 451-497): the retry loop started at attempt 0 with the full delay table,
no recorded error and no sleeps. -/
def get_current_track_with_retry
    (oracle : Nat → Except String (Option CurrentlyPlayingContext)) :
    Except LyricsifyError (Option TrackInfo) × List Nat × Nat :=
  retryGo oracle 0 retryDelays none []

/-! ## Application events and the polling loop -/

/-- `AppEvent` (`src/app_core.rs`, lines 10-17). -/
inductive AppEvent where
  | TrackChanged (track : TrackInfo)
  | LyricsRetrieved (lyrics : Option String)
  | ToggleOverlay
  | Authenticate
  | Quit
  | SpotifyError (msg : String)
deriving DecidableEq, Repr

/-- One iteration body of the polling loop spawned by
`SpotifyClient::start_polling` (`src/spotify_client.rs`, lines 407-441), after
the retry-wrapped query has produced `pollResult`.  `channelOpen` says whether
`event_tx.send` succeeds.  Returns the new `current_track` value, the events
actually delivered, and whether the loop continues (the code `break`s exactly
when a send fails). -/
def pollStep (channelOpen : Bool) (current : Option TrackInfo)
    (pollResult : Except LyricsifyError (Option TrackInfo)) :
    Option TrackInfo × List AppEvent × Bool :=
  match pollResult with
  | .ok newTrack =>
    if current ≠ newTrack then
      match newTrack with
      | some track =>
        if channelOpen then (some track, [AppEvent.TrackChanged track], true)
        else (some track, [], false)
      | none => (none, [], true)
    else (current, [], true)
  | .error e =>
    if channelOpen then (current, [AppEvent.SpotifyError e.toMessage], true)
    else (current, [], false)

/-- The polling loop over a finite list of per-iteration query results:
iterates `pollStep`, accumulating the delivered events, and stops early when a
step breaks. -/
def pollRun (channelOpen : Bool) :
    Option TrackInfo → List (Except LyricsifyError (Option TrackInfo)) →
    Option TrackInfo × List AppEvent
  | current, [] => (current, [])
  | current, r :: rest =>
    match pollStep channelOpen current r with
    | (c', evs, cont) =>
      if cont then
        match pollRun channelOpen c' rest with
        | (cFin, evsRest) => (cFin, evs ++ evsRest)
      else (c', evs)

/-- One full iteration of `start_polling`'s loop: the retry-wrapped
currently-playing query followed by the change detection and event emission
(`src/spotify_client.rs`, lines 407-441). -/
def pollIteration (channelOpen : Bool) (current : Option TrackInfo)
    (oracle : Nat → Except String (Option CurrentlyPlayingContext)) :
    Option TrackInfo × List AppEvent × Bool :=
  pollStep channelOpen current (get_current_track_with_retry oracle).1

/-! ## The lyrics LRU cache (`src/lyrics_fetcher.rs`) -/

/-- `CachedLyrics` (`src/lyrics_fetcher.rs`, lines 16-19): the cached value
(`None` = confirmed "no lyrics") and the insertion instant (a logical tick). -/
structure CachedLyrics where
  lyrics : Option String
  timestamp : Nat
deriving DecidableEq, Repr

/-- `LyricsCache` (`src/lyrics_fetcher.rs`, lines 22-26).  The `HashMap` is
modelled as an association list whose key list stays duplicate-free, the
`VecDeque` as a list with the front at the head. -/
structure LyricsCache where
  entries : List (String × CachedLyrics)
  access_order : List String
  max_size : Nat
deriving DecidableEq, Repr

/-- `HashMap::contains_key` on the association-list model. -/
def containsKey (l : List (String × CachedLyrics)) (k : String) : Bool :=
  l.any (fun p => p.1 == k)

/-- `HashMap::remove` on the association-list model. -/
def removeKey (l : List (String × CachedLyrics)) (k : String) :
    List (String × CachedLyrics) :=
  l.filter (fun p => p.1 != k)

/-- `LyricsCache::new` (`src/lyrics_fetcher.rs`, lines 29-35). -/
def LyricsCache.new (max_size : Nat) : LyricsCache :=
  { entries := [], access_order := [], max_size := max_size }

/-- `LyricsCache::get` (`src/lyrics_fetcher.rs`, lines 37-46): on a hit, the
key is moved to the back of `access_order` (`retain` then `push_back`) and the
entry is returned; on a miss nothing changes. -/
def LyricsCache.get (c : LyricsCache) (track_id : String) :
    Option CachedLyrics × LyricsCache :=
  if containsKey c.entries track_id then
    (c.entries.lookup track_id,
      { c with access_order :=
          (c.access_order.filter (fun id => id != track_id)) ++ [track_id] })
  else
    (none, c)

/-- `LyricsCache::insert` (`src/lyrics_fetcher.rs`, lines 48-74): when the map
is at capacity and the key is new, the front of `access_order` is popped and
removed from the map; then the entry is inserted (overwriting moves the key to
the back of `access_order`, a new key is pushed at the back).  `now` is the
logical tick standing for `Instant::now()`. -/
def LyricsCache.insert (c : LyricsCache) (track_id : String)
    (lyrics : Option String) (now : Nat) : LyricsCache :=
  let c1 :=
    if c.entries.length ≥ c.max_size && !(containsKey c.entries track_id) then
      match c.access_order with
      | [] => c
      | lru :: rest =>
        { c with entries := removeKey c.entries lru, access_order := rest }
    else c
  let cached : CachedLyrics := { lyrics := lyrics, timestamp := now }
  if containsKey c1.entries track_id then
    { c1 with
      entries := c1.entries.map (fun p => if p.1 = track_id then (track_id, cached) else p)
      access_order :=
        (c1.access_order.filter (fun id => id != track_id)) ++ [track_id] }
  else
    { c1 with
      entries := c1.entries ++ [(track_id, cached)]
      access_order := c1.access_order ++ [track_id] }

/-- One cache operation, for stating properties over operation sequences. -/
inductive CacheOp where
  | get (track_id : String)
  | insert (track_id : String) (lyrics : Option String)
deriving DecidableEq, Repr

/-- Runs a sequence of cache operations from a given state, one logical tick
per operation.  Alongside the cache it maintains the last-touch time of every
key: a key is touched by an insert, or by a get that hits. -/
def runCacheOps :
    LyricsCache → (String → Nat) → Nat → List CacheOp → LyricsCache × (String → Nat)
  | c, touch, _, [] => (c, touch)
  | c, touch, now, op :: rest =>
    match op with
    | .get k =>
      runCacheOps (c.get k).2
        (if containsKey c.entries k then (fun x => if x = k then now else touch x) else touch)
        (now + 1) rest
    | .insert k v =>
      runCacheOps (c.insert k v now)
        (fun x => if x = k then now else touch x) (now + 1) rest

/-! ## The lyrics fetcher (`src/lyrics_fetcher.rs`) -/

/-- A response of the Lyrics.ovh endpoint as `query_lyrics_ovh` consumes it:
the HTTP status and the outcome of parsing the body as `LyricsOvhResponse`
and reading its `lyrics` field (the parse may fail; `reqwest` reports both
transport and decode failures as `reqwest::Error`, carried here as strings). -/
structure HttpResponse where
  status : Nat
  jsonLyrics : Except String String
deriving Repr

/-- `reqwest::StatusCode::is_success`: status in 200..=299. -/
def statusIsSuccess (s : Nat) : Bool :=
  200 ≤ s && s ≤ 299

/-- `LyricsFetcher::query_lyrics_ovh` (`src/lyrics_fetcher.rs`, lines
134-161).  `response` is the outcome of `self.http_client.get(&url).send()`:
a transport failure propagates as a `NetworkError` (the `?` on `send`), a
success status returns the parsed lyrics (a decode failure propagating the
same way), a 404 and every other status become `LyricsFetchError`s. -/
def query_lyrics_ovh (response : Except String HttpResponse) :
    Except LyricsifyError String :=
  match response with
  | .error e => .error (.NetworkError e)
  | .ok resp =>
    if statusIsSuccess resp.status then
      match resp.jsonLyrics with
      | .ok lyrics => .ok lyrics
      | .error e => .error (.NetworkError e)
    else if resp.status == 404 then
      .error (.LyricsFetchError "Lyrics not found")
    else
      .error (.LyricsFetchError ("API returned status: " ++ toString resp.status))

/-- `LyricsFetcher::fetch_lyrics` (`src/lyrics_fetcher.rs`, lines 103-131).
`remote` is the outcome of `query_lyrics_ovh(artist, title)`, consulted only
on a cache miss.  Returns the result, the updated cache, and whether the
remote endpoint was queried. -/
def fetch_lyrics (cache : LyricsCache) (track_id : String)
    (remote : Except LyricsifyError String) (now : Nat) :
    Except LyricsifyError (Option String) × LyricsCache × Bool :=
  match cache.get track_id with
  | (some cached, cache') => (.ok cached.lyrics, cache', false)
  | (none, cache') =>
    match remote with
    | .ok lyrics => (.ok (some lyrics), cache'.insert track_id (some lyrics) now, true)
    | .error _ => (.ok none, cache'.insert track_id none now, true)

/-- The capacity `LyricsFetcher::new` gives its cache
(`src/lyrics_fetcher.rs`, line 98): `LyricsCache::new(100)`. -/
def LyricsFetcher.initCache : LyricsCache := LyricsCache.new 100

/-! ## The dispatcher (`src/app_core.rs`) -/

/-- How `App::run`'s event loop ended. -/
inductive LoopExit where
  | quit
  | channelClosed
  | handlerError (e : LyricsifyError)
deriving DecidableEq, Repr

/-- `App::run` (`src/app_core.rs`, lines 108-145), as a loop over the finite
list of events the channel will deliver before closing.  `handler e` is the
outcome of the fallible handler the matched arm calls with `?`
(`handle_track_changed`, `handle_lyrics_retrieved`, `handle_toggle_overlay`,
`handle_authenticate`, `handle_spotify_error`; for `Quit` it is `shutdown`).
A handler error propagates out of the loop through `?`; draining the list is
the `else` branch (channel closed); `Quit` with a successful shutdown breaks
out of the loop. -/
def App.run (events : List AppEvent)
    (handler : AppEvent → Except LyricsifyError Unit) : LoopExit :=
  match events with
  | [] => .channelClosed
  | event :: rest =>
    match event with
    | .Quit =>
      match handler .Quit with
      | .ok _ => .quit
      | .error e => .handlerError e
    | e =>
      match handler e with
      | .ok _ => App.run rest handler
      | .error err => .handlerError err

/-- The lyrics-query arguments `App::handle_track_changed` computes
(`src/app_core.rs`, lines 148-160): the track id, the first artist
(`track.artists.first().unwrap_or(&String::new())`), and the track name. -/
def lyricsQueryArgs (track : TrackInfo) : String × String × String :=
  let artist := track.artists.head?.getD ""
  (track.id, artist, track.name)

/-- `App::handle_track_changed` (`src/app_core.rs`, lines 148-171): fetches
lyrics for the track using the computed query arguments (`remote` maps an
(artist, title) query to its `query_lyrics_ovh` outcome) and produces the
`LyricsRetrieved` event it sends back on the channel. -/
def handle_track_changed (cache : LyricsCache)
    (remote : String → String → Except LyricsifyError String)
    (track : TrackInfo) (now : Nat) :
    Except LyricsifyError (LyricsCache × Bool × AppEvent) :=
  match lyricsQueryArgs track with
  | (track_id, artist, title) =>
    match fetch_lyrics cache track_id (remote artist title) now with
    | (.ok lyrics, cache', called) =>
      .ok (cache', called, AppEvent.LyricsRetrieved lyrics)
    | (.error e, _, _) => .error e

/-! ## Claim C1: token validity -/

/-- C1 (counterexample): the claim says a token that is present but has no
`expires_at` is treated as valid; `is_token_valid` returns `false` for such a
token (the `if let Some(expires_at)` falls through to the final `false`). -/
theorem is_token_valid_no_expiry_counterexample :
    is_token_valid
      (some { access_token := "token", refresh_token := none,
              expires_at := none, scopes := [] }) 0 = false := rfl

/-- C1 (amended): `is_token_valid` returns true iff a token exists, carries an
`expires_at`, and that expiry is more than 60 seconds after the current time;
a token with `expires_at = now + 61` is valid, one with `now + 59` is invalid,
and a token that is present but has no `expires_at` is treated as invalid. -/
theorem is_token_valid_spec :
    (∀ (token : Option Token) (now : Int),
        is_token_valid token now = true ↔
          ∃ t, token = some t ∧ ∃ ea, t.expires_at = some ea ∧ now + 60 < ea) ∧
    (∀ (now : Int) (acc : String) (rt : Option String) (sc : List String),
        is_token_valid (some ⟨acc, rt, some (now + 61), sc⟩) now = true) ∧
    (∀ (now : Int) (acc : String) (rt : Option String) (sc : List String),
        is_token_valid (some ⟨acc, rt, some (now + 59), sc⟩) now = false) ∧
    (∀ (now : Int) (acc : String) (rt : Option String) (sc : List String),
        is_token_valid (some ⟨acc, rt, none, sc⟩) now = false) := by
  refine ⟨?_, ?_, ?_, ?_⟩
  · intro token now
    match token with
    | none => simp [is_token_valid]
    | some t =>
      match h : t.expires_at with
      | none => simp [is_token_valid, h]
      | some ea => simp [is_token_valid, h, gt_iff_lt]
  · intro now acc rt sc
    simp only [is_token_valid, decide_eq_true_eq, gt_iff_lt]
    omega
  · intro now acc rt sc
    simp only [is_token_valid, decide_eq_false_iff_not, gt_iff_lt, not_lt]
    omega
  · intro now acc rt sc
    rfl

/-! ## Claim C6: retry with backoff -/

/-- C6: the currently-playing query makes up to 3 attempts using the delay
table 1s, 2s, 4s with no sleep after the final attempt; failing twice and
succeeding on the third attempt yields the successful result after sleeps of
1s then 2s and none after success; three failures yield a `SpotifyApiError`
carrying the last attempt's error message (again with only the 1s and 2s
sleeps performed). -/
theorem get_current_track_with_retry_spec :
    retryDelays = [1, 2, 4] ∧
    (∀ oracle, (get_current_track_with_retry oracle).2.2 ≤ 3) ∧
    (∀ oracle e0 e1 r,
        oracle 0 = .error e0 → oracle 1 = .error e1 → oracle 2 = .ok r →
        get_current_track_with_retry oracle =
          (.ok (interpretPlaying r), [1, 2], 3)) ∧
    (∀ oracle e0 e1 e2,
        oracle 0 = .error e0 → oracle 1 = .error e1 → oracle 2 = .error e2 →
        get_current_track_with_retry oracle =
          (.error (.SpotifyApiError
              ("Failed to get current track after 3 attempts: " ++ e2)),
            [1, 2], 3)) := by
  refine ⟨rfl, ?_, ?_, ?_⟩
  · intro oracle
    cases h0 : oracle 0 with
    | ok v => simp [get_current_track_with_retry, retryDelays, retryGo, h0]
    | error e0 =>
      cases h1 : oracle 1 with
      | ok v => simp [get_current_track_with_retry, retryDelays, retryGo, h0, h1]
      | error e1 =>
        cases h2 : oracle 2 with
        | ok v => simp [get_current_track_with_retry, retryDelays, retryGo, h0, h1, h2]
        | error e2 => simp [get_current_track_with_retry, retryDelays, retryGo, h0, h1, h2]
  · intro oracle e0 e1 r h0 h1 h2
    simp [get_current_track_with_retry, retryDelays, retryGo, h0, h1, h2]
  · intro oracle e0 e1 e2 h0 h1 h2
    simp only [get_current_track_with_retry, retryDelays, retryGo, h0, h1, h2,
      List.isEmpty, List.nil_append, List.singleton_append]
    rfl

/-- C6 (witness): the retry theorem applied to a concrete oracle that fails
on its first two calls and succeeds on the third with an empty player
context. -/
theorem get_current_track_with_retry_spec_witness :
    get_current_track_with_retry
        (fun n => if n = 2 then .ok none else .error "transport failure") =
      (.ok (interpretPlaying none), [1, 2], 3) :=
  get_current_track_with_retry_spec.2.2.1
    (fun n => if n = 2 then .ok none else .error "transport failure")
    "transport failure" "transport failure" none rfl rfl rfl

/-! ## Claim C7: token refresh -/

/-- C7: `refresh_token` fails with `AuthenticationFailed` and changes nothing
when no token exists; with a token present, a successful refresh persists the
new token to the keychain and succeeds, and a failed refresh clears the
keychain entry and fails with `AuthenticationFailed`. -/
theorem refresh_token_spec :
    (∀ st r, st.token = none →
        refresh_token st r =
          (.error (.AuthenticationFailed "No token available to refresh"), st)) ∧
    (∀ st tok newTok, st.token = some tok →
        refresh_token st (.ok newTok) =
          (.ok (), { token := some newTok, keychain := some (storedOfToken newTok) })) ∧
    (∀ st tok e, st.token = some tok →
        refresh_token st (.error e) =
          (.error (.AuthenticationFailed
              ("Token refresh failed, re-authentication required: " ++ e)),
            { st with keychain := none })) := by
  refine ⟨?_, ?_, ?_⟩
  · intro st r h
    simp [refresh_token, h]
  · intro st tok newTok h
    simp [refresh_token, h]
  · intro st tok e h
    simp [refresh_token, h]

/-- C7 (witness): the refresh theorem applied to a concrete failing refresh on
a state holding a token, showing the keychain entry is cleared. -/
theorem refresh_token_spec_witness :
    refresh_token
        { token := some { access_token := "old", refresh_token := some "r",
                          expires_at := some 0, scopes := [] },
          keychain := some { access_token := "old", refresh_token := some "r",
                             expires_at := some 0, scopes := [] } }
        (.error "invalid_grant") =
      (.error (.AuthenticationFailed
          ("Token refresh failed, re-authentication required: " ++ "invalid_grant")),
        { token := some { access_token := "old", refresh_token := some "r",
                          expires_at := some 0, scopes := [] },
          keychain := none }) :=
  refresh_token_spec.2.2
    { token := some { access_token := "old", refresh_token := some "r",
                      expires_at := some 0, scopes := [] },
      keychain := some { access_token := "old", refresh_token := some "r",
                         expires_at := some 0, scopes := [] } }
    { access_token := "old", refresh_token := some "r",
      expires_at := some 0, scopes := [] }
    "invalid_grant" rfl

/-! ## Claim C5: change detection in the polling loop -/

/-- C5: with the event channel accepting sends, a successful poll emits a
`TrackChanged` event exactly when the observed value differs from the last
known track and is a track; the last-known-track always becomes the observed
value; no other event is ever emitted on a successful poll; observing the
same track again emits nothing; a transition to `none` updates the
last-known-track but emits nothing; and the A, A, B scenario emits exactly
`TrackChanged A` then `TrackChanged B`. -/
theorem poll_step_track_change_spec :
    (∀ current newTrack t,
        (pollStep true current (.ok newTrack)).2.1 = [AppEvent.TrackChanged t] ↔
          (newTrack = some t ∧ current ≠ newTrack)) ∧
    (∀ current newTrack,
        (pollStep true current (.ok newTrack)).1 = newTrack ∧
        (pollStep true current (.ok newTrack)).2.2 = true ∧
        ((pollStep true current (.ok newTrack)).2.1 = [] ∨
          ∃ t, newTrack = some t ∧
            (pollStep true current (.ok newTrack)).2.1 = [AppEvent.TrackChanged t])) ∧
    (∀ t, pollStep true (some t) (.ok (some t)) = (some t, [], true)) ∧
    (∀ current, (pollStep true current (.ok none)).1 = none ∧
        (pollStep true current (.ok none)).2.1 = []) ∧
    (∀ A B : TrackInfo, A ≠ B →
        (pollRun true none [.ok (some A), .ok (some A), .ok (some B)]).2 =
          [AppEvent.TrackChanged A, AppEvent.TrackChanged B]) := by
  refine ⟨?_, ?_, ?_, ?_, ?_⟩
  · intro current newTrack t
    by_cases h : current = newTrack
    · subst h
      simp [pollStep]
    · match newTrack with
      | none => simp [pollStep, h]
      | some u => simp [pollStep, h]
  · intro current newTrack
    by_cases h : current = newTrack
    · subst h
      simp [pollStep]
    · match newTrack with
      | none => simp [pollStep, h]
      | some u => simp [pollStep, h]
  · intro t
    simp [pollStep]
  · intro current
    by_cases h : current = none
    · subst h
      simp [pollStep]
    · simp [pollStep, h]
  · intro A B hAB
    have hBA : ¬ (some A = some B) := by
      simpa using hAB
    simp [pollRun, pollStep, hBA]

/-- C5 (witness): the scenario conjunct applied to two concrete distinct
tracks, yielding exactly two `TrackChanged` events. -/
theorem poll_step_track_change_spec_witness :
    (pollRun true none
        [.ok (some { id := "a", name := "Song A", artists := ["X"], duration_ms := 1000 }),
         .ok (some { id := "a", name := "Song A", artists := ["X"], duration_ms := 1000 }),
         .ok (some { id := "b", name := "Song B", artists := ["Y"], duration_ms := 2000 })]).2 =
      [AppEvent.TrackChanged { id := "a", name := "Song A", artists := ["X"], duration_ms := 1000 },
       AppEvent.TrackChanged { id := "b", name := "Song B", artists := ["Y"], duration_ms := 2000 }] :=
  poll_step_track_change_spec.2.2.2.2
    { id := "a", name := "Song A", artists := ["X"], duration_ms := 1000 }
    { id := "b", name := "Song B", artists := ["Y"], duration_ms := 2000 }
    (by decide)

/-! ## Claim C8: poll iteration after exhausted retries -/

/-- C8: when every retry attempt of an iteration fails and the channel
accepts the send, the iteration emits a single `SpotifyError` event carrying
the last attempt's error message, leaves the last-known-track unchanged, and
the loop continues. -/
theorem poll_error_iteration_frame :
    ∀ (oracle : Nat → Except String (Option CurrentlyPlayingContext))
      (e0 e1 e2 : String) (current : Option TrackInfo),
      oracle 0 = .error e0 → oracle 1 = .error e1 → oracle 2 = .error e2 →
      pollIteration true current oracle =
        (current,
          [AppEvent.SpotifyError
            ("Spotify API error: " ++
              ("Failed to get current track after 3 attempts: " ++ e2))],
          true) := by
  intro oracle e0 e1 e2 current h0 h1 h2
  have hret := get_current_track_with_retry_spec.2.2.2 oracle e0 e1 e2 h0 h1 h2
  simp [pollIteration, hret, pollStep, LyricsifyError.toMessage]

/-- C8 (witness): the frame theorem applied to a concrete always-failing
oracle and a concrete last-known track. -/
theorem poll_error_iteration_frame_witness :
    pollIteration true
        (some { id := "a", name := "Song A", artists := ["X"], duration_ms := 1000 })
        (fun _ => .error "rate limited") =
      (some { id := "a", name := "Song A", artists := ["X"], duration_ms := 1000 },
        [AppEvent.SpotifyError
          ("Spotify API error: " ++
            ("Failed to get current track after 3 attempts: " ++ "rate limited"))],
        true) :=
  poll_error_iteration_frame (fun _ => .error "rate limited")
    "rate limited" "rate limited" "rate limited"
    (some { id := "a", name := "Song A", artists := ["X"], duration_ms := 1000 })
    rfl rfl rfl

/-! ## Claim C9: how the dispatcher loop terminates -/

/-- The outcome of each handler arm of `App::run`'s match, derived from the
source.  Every arm except `Quit` is infallible in this program:
`handle_track_changed` only fails if `fetch_lyrics` fails (it never does, see
`fetch_lyrics_absorbs_failures`) or if the send on the event channel fails
(the receiver is `self.event_rx`, owned by the very `App` that is executing
the loop, so the channel stays open); `handle_lyrics_retrieved` and
`handle_spotify_error` call `OverlayWindow::update_lyrics`
(`src/ui_manager.rs`, lines 196-202), which returns `Ok(())` unconditionally;
`handle_toggle_overlay` calls `OverlayWindow::hide`/`show` and
`MenuBar::update_visibility_state` (`src/ui_manager.rs`, lines 167-193 and
398-418), all unconditionally `Ok(())` — even their internal `config.save()`
errors are discarded with `let _ =`; `handle_authenticate` only forwards
`get_auth_url`, a pure URL construction over the configuration validated when
the client was built, and swallows the browser-opening error with
`if let Err`.  The one fallible arm is `Quit`, whose `shutdown` performs
`self.config.save()?` (`src/app_core.rs`, lines 250-262): `AppConfig::save`
does real filesystem work and fails with `ConfigError` when the directory or
file cannot be written (`src/config.rs`, lines 75-95).  `saveResult` is the
outcome of that save. -/
def appHandler (saveResult : Except LyricsifyError Unit) :
    AppEvent → Except LyricsifyError Unit
  | .TrackChanged _ => .ok ()
  | .LyricsRetrieved _ => .ok ()
  | .ToggleOverlay => .ok ()
  | .Authenticate => .ok ()
  | .Quit => saveResult
  | .SpotifyError _ => .ok ()

/-- C9 (counterexample): the claim says the loop ends only by a Quit whose
graceful shutdown runs and exits the loop, or by channel exhaustion.  At the
realizable input where the stream delivers `Quit` and the shutdown's
`config.save()` fails (a plain filesystem write error), the loop instead ends
by the save error propagating out of `App::run` through `?`: the
configuration is not persisted and `run` returns that error — an exit that is
neither the graceful-shutdown exit nor the channel-closed exit. -/
theorem app_run_shutdown_error_counterexample :
    App.run [AppEvent.Quit]
        (appHandler (.error (.ConfigError "Failed to write config file: disk full"))) =
      .handlerError (.ConfigError "Failed to write config file: disk full") ∧
    LoopExit.handlerError (.ConfigError "Failed to write config file: disk full") ≠
      .quit ∧
    LoopExit.handlerError (.ConfigError "Failed to write config file: disk full") ≠
      .channelClosed := by
  refine ⟨rfl, ?_, ?_⟩ <;> decide

/-- C9 (amended): with the handlers as this source defines them, `App::run`'s
loop ends in exactly these ways — a `Quit` event whose shutdown succeeds (the
graceful `quit` exit), the event channel being closed/exhausted (the
`channelClosed` exit with a warning), or the shutdown run for a `Quit` event
failing to persist the configuration, in which case that error propagates out
of the loop through `?`.  No event other than `Quit` can end the loop (every
other handler is infallible), when the shutdown's save succeeds the two paths
of the original claim are the only ones, and the graceful `quit` exit only
arises from a `Quit` event in the stream. -/
theorem app_run_termination_spec :
    (∀ (events : List AppEvent) (saveResult : Except LyricsifyError Unit),
        App.run events (appHandler saveResult) = .quit ∨
        App.run events (appHandler saveResult) = .channelClosed ∨
        (∃ e, saveResult = .error e ∧
          App.run events (appHandler saveResult) = .handlerError e ∧
          AppEvent.Quit ∈ events)) ∧
    (∀ events : List AppEvent,
        App.run events (appHandler (.ok ())) = .quit ∨
        App.run events (appHandler (.ok ())) = .channelClosed) ∧
    (∀ (events : List AppEvent) (saveResult : Except LyricsifyError Unit),
        App.run events (appHandler saveResult) = .quit →
        AppEvent.Quit ∈ events) := by
  have h1 : ∀ (events : List AppEvent) (saveResult : Except LyricsifyError Unit),
      App.run events (appHandler saveResult) = .quit ∨
      App.run events (appHandler saveResult) = .channelClosed ∨
      (∃ e, saveResult = .error e ∧
        App.run events (appHandler saveResult) = .handlerError e ∧
        AppEvent.Quit ∈ events) := by
    intro events saveResult
    induction events with
    | nil => simp [App.run]
    | cons ev rest ih =>
      match ev with
      | .Quit =>
        cases hs : saveResult with
        | ok u => left; simp [App.run, appHandler, hs]
        | error e =>
          right; right
          exact ⟨e, rfl, by simp [App.run, appHandler, hs],
            List.mem_cons_self _ _⟩
      | .TrackChanged t =>
        have hstep : App.run (AppEvent.TrackChanged t :: rest) (appHandler saveResult) =
            App.run rest (appHandler saveResult) := by
          simp [App.run, appHandler]
        rcases ih with h | h | ⟨e, he, hrun, hmem⟩
        · exact Or.inl (hstep ▸ h)
        · exact Or.inr (Or.inl (hstep ▸ h))
        · exact Or.inr (Or.inr ⟨e, he, hstep ▸ hrun, List.mem_cons_of_mem _ hmem⟩)
      | .LyricsRetrieved l =>
        have hstep : App.run (AppEvent.LyricsRetrieved l :: rest) (appHandler saveResult) =
            App.run rest (appHandler saveResult) := by
          simp [App.run, appHandler]
        rcases ih with h | h | ⟨e, he, hrun, hmem⟩
        · exact Or.inl (hstep ▸ h)
        · exact Or.inr (Or.inl (hstep ▸ h))
        · exact Or.inr (Or.inr ⟨e, he, hstep ▸ hrun, List.mem_cons_of_mem _ hmem⟩)
      | .ToggleOverlay =>
        have hstep : App.run (AppEvent.ToggleOverlay :: rest) (appHandler saveResult) =
            App.run rest (appHandler saveResult) := by
          simp [App.run, appHandler]
        rcases ih with h | h | ⟨e, he, hrun, hmem⟩
        · exact Or.inl (hstep ▸ h)
        · exact Or.inr (Or.inl (hstep ▸ h))
        · exact Or.inr (Or.inr ⟨e, he, hstep ▸ hrun, List.mem_cons_of_mem _ hmem⟩)
      | .Authenticate =>
        have hstep : App.run (AppEvent.Authenticate :: rest) (appHandler saveResult) =
            App.run rest (appHandler saveResult) := by
          simp [App.run, appHandler]
        rcases ih with h | h | ⟨e, he, hrun, hmem⟩
        · exact Or.inl (hstep ▸ h)
        · exact Or.inr (Or.inl (hstep ▸ h))
        · exact Or.inr (Or.inr ⟨e, he, hstep ▸ hrun, List.mem_cons_of_mem _ hmem⟩)
      | .SpotifyError m =>
        have hstep : App.run (AppEvent.SpotifyError m :: rest) (appHandler saveResult) =
            App.run rest (appHandler saveResult) := by
          simp [App.run, appHandler]
        rcases ih with h | h | ⟨e, he, hrun, hmem⟩
        · exact Or.inl (hstep ▸ h)
        · exact Or.inr (Or.inl (hstep ▸ h))
        · exact Or.inr (Or.inr ⟨e, he, hstep ▸ hrun, List.mem_cons_of_mem _ hmem⟩)
  refine ⟨h1, ?_, ?_⟩
  · intro events
    rcases h1 events (.ok ()) with h | h | ⟨e, he, _, _⟩
    · exact Or.inl h
    · exact Or.inr h
    · exact absurd he (by simp)
  · intro events saveResult hrun
    rcases h1 events saveResult with h | h | ⟨e, _, h, hmem⟩
    · clear hrun
      induction events with
      | nil => simp [App.run] at h
      | cons ev rest ih =>
        match ev with
        | .Quit => exact List.mem_cons_self _ _
        | .TrackChanged t =>
          have hstep : App.run (AppEvent.TrackChanged t :: rest) (appHandler saveResult) =
              App.run rest (appHandler saveResult) := by
            simp [App.run, appHandler]
          exact List.mem_cons_of_mem _ (ih (hstep ▸ h))
        | .LyricsRetrieved l =>
          have hstep : App.run (AppEvent.LyricsRetrieved l :: rest) (appHandler saveResult) =
              App.run rest (appHandler saveResult) := by
            simp [App.run, appHandler]
          exact List.mem_cons_of_mem _ (ih (hstep ▸ h))
        | .ToggleOverlay =>
          have hstep : App.run (AppEvent.ToggleOverlay :: rest) (appHandler saveResult) =
              App.run rest (appHandler saveResult) := by
            simp [App.run, appHandler]
          exact List.mem_cons_of_mem _ (ih (hstep ▸ h))
        | .Authenticate =>
          have hstep : App.run (AppEvent.Authenticate :: rest) (appHandler saveResult) =
              App.run rest (appHandler saveResult) := by
            simp [App.run, appHandler]
          exact List.mem_cons_of_mem _ (ih (hstep ▸ h))
        | .SpotifyError m =>
          have hstep : App.run (AppEvent.SpotifyError m :: rest) (appHandler saveResult) =
              App.run rest (appHandler saveResult) := by
            simp [App.run, appHandler]
          exact List.mem_cons_of_mem _ (ih (hstep ▸ h))
    · rw [hrun] at h
      exact absurd h (by simp)
    · exact hmem

/-- C9 (witness): the amended theorem applied to concrete streams — a
Quit-free stream with a succeeding save ends by one of the two original
paths, and a stream whose run exits gracefully indeed contains a Quit. -/
theorem app_run_termination_spec_witness :
    (App.run [AppEvent.ToggleOverlay, AppEvent.Authenticate] (appHandler (.ok ())) =
        .quit ∨
      App.run [AppEvent.ToggleOverlay, AppEvent.Authenticate] (appHandler (.ok ())) =
        .channelClosed) ∧
    AppEvent.Quit ∈ [AppEvent.SpotifyError "boom", AppEvent.Quit] :=
  ⟨app_run_termination_spec.2.1 [AppEvent.ToggleOverlay, AppEvent.Authenticate],
    app_run_termination_spec.2.2 [AppEvent.SpotifyError "boom", AppEvent.Quit]
      (.ok ()) rfl⟩

/-! ## Claim C10: only the first artist feeds the lyrics query -/

/-- C10: the lyrics query computed by `handle_track_changed` uses the first
element of the track's artist list as the artist (the empty string when the
list is empty) together with the track's id and name; two tracks agreeing on
id, name and first artist are handled identically, whatever their remaining
artists or durations are. -/
theorem handle_track_changed_first_artist_only :
    (∀ track, (lyricsQueryArgs track).2.1 =
        match track.artists with
        | [] => ""
        | a :: _ => a) ∧
    (∀ track track' : TrackInfo, track.id = track'.id → track.name = track'.name →
        track.artists.head? = track'.artists.head? →
        lyricsQueryArgs track = lyricsQueryArgs track') ∧
    (∀ cache remote (track track' : TrackInfo) now,
        track.id = track'.id → track.name = track'.name →
        track.artists.head? = track'.artists.head? →
        handle_track_changed cache remote track now =
          handle_track_changed cache remote track' now) := by
  have hargs : ∀ track track' : TrackInfo, track.id = track'.id →
      track.name = track'.name → track.artists.head? = track'.artists.head? →
      lyricsQueryArgs track = lyricsQueryArgs track' := by
    intro track track' hid hname hart
    simp [lyricsQueryArgs, hid, hname, hart]
  refine ⟨?_, hargs, ?_⟩
  · intro track
    match h : track.artists with
    | [] => simp [lyricsQueryArgs, h]
    | a :: rest => simp [lyricsQueryArgs, h]
  · intro cache remote track track' now hid hname hart
    simp [handle_track_changed, hargs track track' hid hname hart]

/-- C10 (witness): two concrete tracks sharing id, name and first artist but
differing in the remaining artists and the duration are handled identically
on a fresh fetcher cache. -/
theorem handle_track_changed_first_artist_only_witness :
    handle_track_changed LyricsFetcher.initCache
        (fun _ _ => .error (.LyricsFetchError "Lyrics not found"))
        { id := "t1", name := "Title", artists := ["Artist", "Feat"], duration_ms := 1 } 5 =
      handle_track_changed LyricsFetcher.initCache
        (fun _ _ => .error (.LyricsFetchError "Lyrics not found"))
        { id := "t1", name := "Title", artists := ["Artist"], duration_ms := 2 } 5 :=
  handle_track_changed_first_artist_only.2.2 LyricsFetcher.initCache
    (fun _ _ => .error (.LyricsFetchError "Lyrics not found"))
    { id := "t1", name := "Title", artists := ["Artist", "Feat"], duration_ms := 1 }
    { id := "t1", name := "Title", artists := ["Artist"], duration_ms := 2 }
    5 rfl rfl rfl

/-! ## Helper lemmas about the association-list map -/

/-- Characterization of `contains_key` on the association-list model. -/
theorem containsKey_iff {l : List (String × CachedLyrics)} {k : String} :
    containsKey l k = true ↔ ∃ p ∈ l, p.1 = k := by
  simp [containsKey, List.any_eq_true]

/-- Characterization of a failing `contains_key`. -/
theorem containsKey_eq_false_iff {l : List (String × CachedLyrics)} {k : String} :
    containsKey l k = false ↔ ∀ p ∈ l, p.1 ≠ k := by
  constructor
  · intro h p hp hpk
    have hc : containsKey l k = true := containsKey_iff.mpr ⟨p, hp, hpk⟩
    rw [h] at hc
    exact absurd hc (by simp)
  · intro h
    cases hc : containsKey l k with
    | false => rfl
    | true =>
      obtain ⟨p, hp, hpk⟩ := containsKey_iff.mp hc
      exact absurd hpk (h p hp)

/-- A successful lookup means `contains_key` holds. -/
theorem containsKey_of_lookup {l : List (String × CachedLyrics)} {k : String}
    {v : CachedLyrics} (h : l.lookup k = some v) : containsKey l k = true := by
  induction l with
  | nil => simp [List.lookup] at h
  | cons p rest ih =>
    obtain ⟨a, b⟩ := p
    by_cases hk : k = a
    · exact containsKey_iff.mpr ⟨(a, b), List.mem_cons_self _ _, hk.symm⟩
    · simp only [List.lookup, beq_false_of_ne hk] at h
      have hc := ih h
      simp only [containsKey] at hc
      simp [containsKey, List.any_cons, hc]

/-- Appending a fresh key to the association list makes lookups of that key
return the appended value. -/
theorem lookup_append_fresh {l : List (String × CachedLyrics)} {k : String}
    (v : CachedLyrics) (h : containsKey l k = false) :
    (l ++ [(k, v)]).lookup k = some v := by
  induction l with
  | nil => simp [List.lookup]
  | cons p rest ih =>
    obtain ⟨a, b⟩ := p
    have h' := containsKey_eq_false_iff.mp h
    have hak : a ≠ k := by
      have := h' (a, b) (List.mem_cons_self _ _)
      simpa using this
    have hrest : containsKey rest k = false :=
      containsKey_eq_false_iff.mpr (fun q hq => h' q (List.mem_cons_of_mem _ hq))
    have hk : (k == a) = false := beq_false_of_ne (Ne.symm hak)
    simpa [List.lookup, hk] using ih hrest

/-- Removing one key never makes another key appear. -/
theorem containsKey_removeKey_false {l : List (String × CachedLyrics)}
    {k j : String} (h : containsKey l k = false) :
    containsKey (removeKey l j) k = false := by
  rw [containsKey_eq_false_iff] at h ⊢
  intro p hp
  exact h p (List.mem_of_mem_filter hp)

/-- Inserting a key that is not in the cache (whether or not an eviction
happens first) makes that key map to the freshly inserted entry. -/
theorem lookup_insert_fresh {c : LyricsCache} {k : String} (v : Option String)
    (now : Nat) (h : containsKey c.entries k = false) :
    (c.insert k v now).entries.lookup k =
      some { lyrics := v, timestamp := now } := by
  unfold LyricsCache.insert
  by_cases hlen : c.entries.length ≥ c.max_size
  · cases horder : c.access_order with
    | nil => simp [h, hlen, horder, lookup_append_fresh]
    | cons lru rest =>
      have h2 := containsKey_removeKey_false (j := lru) h
      simp [h, hlen, horder, h2, lookup_append_fresh]
  · simp [h, hlen, lookup_append_fresh]

/-! ## Claim C3: negative-cache idempotence -/

/-- C3: whenever the cache holds a negative entry for a track id,
`fetch_lyrics` for that id returns `Ok(None)` without querying the remote
endpoint and leaves the entry in place (so every later call behaves the same
until the entry is evicted); and a lookup that misses the cache and fails
remotely installs exactly such a negative entry. -/
theorem fetch_lyrics_negative_cache_idempotent :
    (∀ (cache : LyricsCache) (track_id : String)
        (remote : Except LyricsifyError String) (now : Nat) (entry : CachedLyrics),
        cache.entries.lookup track_id = some entry → entry.lyrics = none →
        (fetch_lyrics cache track_id remote now).1 = .ok none ∧
        (fetch_lyrics cache track_id remote now).2.2 = false ∧
        (fetch_lyrics cache track_id remote now).2.1.entries.lookup track_id =
          some entry) ∧
    (∀ (cache : LyricsCache) (track_id : String)
        (remote : Except LyricsifyError String) (now : Nat),
        containsKey cache.entries track_id = false →
        (∃ e, remote = .error e) →
        (fetch_lyrics cache track_id remote now).1 = .ok none ∧
        (fetch_lyrics cache track_id remote now).2.2 = true ∧
        (fetch_lyrics cache track_id remote now).2.1.entries.lookup track_id =
          some { lyrics := none, timestamp := now }) := by
  constructor
  · intro cache track_id remote now entry hl hnone
    have hc : containsKey cache.entries track_id = true := containsKey_of_lookup hl
    refine ⟨?_, ?_, ?_⟩ <;> simp [fetch_lyrics, LyricsCache.get, hc, hl, hnone]
  · rintro cache track_id remote now hc ⟨e, rfl⟩
    refine ⟨?_, ?_, ?_⟩ <;>
      simp [fetch_lyrics, LyricsCache.get, hc, lookup_insert_fresh]

/-- C3 (witness): on a cache that has already recorded "no lyrics" for track
`t2`, a fetch returns `Ok(None)`, makes no remote call and keeps the negative
entry. -/
theorem fetch_lyrics_negative_cache_idempotent_witness :
    (fetch_lyrics ((LyricsCache.new 100).insert "t2" none 1) "t2"
        (.ok "should not be consulted") 2).1 = .ok none ∧
    (fetch_lyrics ((LyricsCache.new 100).insert "t2" none 1) "t2"
        (.ok "should not be consulted") 2).2.2 = false ∧
    (fetch_lyrics ((LyricsCache.new 100).insert "t2" none 1) "t2"
        (.ok "should not be consulted") 2).2.1.entries.lookup "t2" =
      some { lyrics := none, timestamp := 1 } :=
  fetch_lyrics_negative_cache_idempotent.1
    ((LyricsCache.new 100).insert "t2" none 1) "t2"
    (.ok "should not be consulted") 2 { lyrics := none, timestamp := 1 }
    (by decide) rfl

/-! ## Claim C4: lookup failures are absorbed -/

/-- C4: a transport failure and a 404 both make `query_lyrics_ovh` fail; on a
cache miss whose remote query fails for any reason, `fetch_lyrics` caches a
negative entry and returns `Ok(None)`; and `fetch_lyrics` never returns an
error to its caller. -/
theorem fetch_lyrics_absorbs_failures :
    (∀ e, query_lyrics_ovh (.error e) = .error (.NetworkError e)) ∧
    (∀ j, query_lyrics_ovh (.ok { status := 404, jsonLyrics := j }) =
        .error (.LyricsFetchError "Lyrics not found")) ∧
    (∀ (cache : LyricsCache) (track_id : String)
        (response : Except String HttpResponse) (now : Nat),
        containsKey cache.entries track_id = false →
        (∃ e, query_lyrics_ovh response = .error e) →
        (fetch_lyrics cache track_id (query_lyrics_ovh response) now).1 = .ok none ∧
        (fetch_lyrics cache track_id (query_lyrics_ovh response) now).2.1.entries.lookup
            track_id = some { lyrics := none, timestamp := now }) ∧
    (∀ (cache : LyricsCache) (track_id : String)
        (remote : Except LyricsifyError String) (now : Nat),
        ∃ v, (fetch_lyrics cache track_id remote now).1 = .ok v) := by
  refine ⟨fun e => rfl, ?_, ?_, ?_⟩
  · intro j
    simp [query_lyrics_ovh, statusIsSuccess]
  · intro cache track_id response now hc he
    have h1 := (fetch_lyrics_negative_cache_idempotent.2 cache track_id
      (query_lyrics_ovh response) now hc he)
    exact ⟨h1.1, h1.2.2⟩
  · intro cache track_id remote now
    cases hg : LyricsCache.get cache track_id with
    | mk found cache' =>
      cases found with
      | some cached => exact ⟨cached.lyrics, by simp [fetch_lyrics, hg]⟩
      | none =>
        cases remote with
        | ok lyrics => exact ⟨some lyrics, by simp [fetch_lyrics, hg]⟩
        | error e => exact ⟨none, by simp [fetch_lyrics, hg]⟩

/-- C4 (witness): a 404 response on a cache miss yields `Ok(None)` and a
cached negative entry. -/
theorem fetch_lyrics_absorbs_failures_witness :
    (fetch_lyrics (LyricsCache.new 100) "t2"
        (query_lyrics_ovh (.ok { status := 404, jsonLyrics := .error "no body" })) 7).1 =
      .ok none ∧
    (fetch_lyrics (LyricsCache.new 100) "t2"
        (query_lyrics_ovh (.ok { status := 404, jsonLyrics := .error "no body" })) 7).2.1.entries.lookup
        "t2" = some { lyrics := none, timestamp := 7 } :=
  fetch_lyrics_absorbs_failures.2.2.1 (LyricsCache.new 100) "t2"
    (.ok { status := 404, jsonLyrics := .error "no body" }) 7 rfl
    ⟨.LyricsFetchError "Lyrics not found", rfl⟩

/-! ## Claim C2: the LRU invariant -/

/-- `contains_key` as membership in the key list. -/
theorem containsKey_eq_true_iff_mem_keys {l : List (String × CachedLyrics)}
    {k : String} : containsKey l k = true ↔ k ∈ l.map Prod.fst := by
  rw [containsKey_iff]
  simp [List.mem_map]

/-- Filtering away an absent element changes nothing. -/
theorem filter_ne_eq_self {l : List String} {a : String} (h : a ∉ l) :
    l.filter (fun y => y != a) = l := by
  refine List.filter_eq_self.mpr ?_
  intro x hx
  simp only [bne_iff_ne, ne_eq, decide_eq_true_eq]
  intro hxa
  exact h (hxa ▸ hx)

/-- Filtering one occurrence out of a duplicate-free list shortens it by
exactly one. -/
theorem length_filter_ne_of_nodup {l : List String} {a : String}
    (hnd : l.Nodup) (ha : a ∈ l) :
    (l.filter (fun y => y != a)).length = l.length - 1 := by
  induction l with
  | nil => cases ha
  | cons b t ih =>
    have hbt : b ∉ t := (List.nodup_cons.mp hnd).1
    have hndt : t.Nodup := (List.nodup_cons.mp hnd).2
    rcases List.mem_cons.mp ha with hab | hat
    · subst hab
      rw [List.filter_cons]
      simp only [bne_self_eq_false, Bool.false_eq_true, if_neg]
      rw [filter_ne_eq_self hbt]
      simp
    · have hba : b ≠ a := fun hba => hbt (hba ▸ hat)
      have htpos : 0 < t.length := List.length_pos.mpr (List.ne_nil_of_mem hat)
      have hfb : (b != a) = true := by simpa [bne_iff_ne] using hba
      simp only [List.filter_cons, hfb, if_true, List.length_cons, ih hndt hat]
      omega

/-- Overwriting the value stored at one key leaves the key list unchanged. -/
theorem keys_map_overwrite (l : List (String × CachedLyrics)) (k : String)
    (cached : CachedLyrics) :
    (l.map (fun p => if p.1 = k then (k, cached) else p)).map Prod.fst =
      l.map Prod.fst := by
  induction l with
  | nil => rfl
  | cons p t ih =>
    by_cases hp : p.1 = k
    · simp [hp, ih]
    · simp [hp, ih]

/-- The key list of `remove` is the filtered key list. -/
theorem keys_removeKey (l : List (String × CachedLyrics)) (a : String) :
    (removeKey l a).map Prod.fst = (l.map Prod.fst).filter (fun y => y != a) := by
  induction l with
  | nil => rfl
  | cons p t ih =>
    by_cases hp : p.1 = a
    · simp [removeKey, List.filter_cons, hp, ih]
      simpa [removeKey] using ih
    · have hb : (p.1 != a) = true := by simpa [bne_iff_ne] using hp
      simp [removeKey, List.filter_cons, hb]
      simpa [removeKey] using ih

/-- The reachability invariant tying a cache state to the last-touch times of
its keys: the map's keys are duplicate-free and are exactly the keys in
`access_order`; the map and the queue have the same size, bounded by the
capacity; `access_order` is strictly ordered by last-touch time (front =
least recently touched); and every recorded touch happened before `now`. -/
structure CacheInv (c : LyricsCache) (t : String → Nat) (now : Nat) : Prop where
  one_le : 1 ≤ c.max_size
  keys_nodup : (c.entries.map Prod.fst).Nodup
  mem_iff : ∀ x, x ∈ c.entries.map Prod.fst ↔ x ∈ c.access_order
  len_eq : c.entries.length = c.access_order.length
  sorted : c.access_order.Pairwise (fun a b => t a < t b)
  touch_lt : ∀ x ∈ c.access_order, t x < now
  size_le : c.entries.length ≤ c.max_size

/-- Strict ordering by touch time makes the queue duplicate-free. -/
theorem CacheInv.order_nodup {c : LyricsCache} {t : String → Nat} {now : Nat}
    (h : CacheInv c t now) : c.access_order.Nodup :=
  h.sorted.imp (fun hab heq => absurd (heq ▸ hab) (lt_irrefl _))

/-- The invariant is monotone in `now`. -/
theorem CacheInv.mono {c : LyricsCache} {t : String → Nat} {now now' : Nat}
    (h : CacheInv c t now) (hle : now ≤ now') : CacheInv c t now' :=
  { h with touch_lt := fun x hx => lt_of_lt_of_le (h.touch_lt x hx) hle }

/-- A touched key's queue after the move-to-back step, with the touch time
updated to `now`, is again strictly ordered, provided every old touch is
below `now`. -/
theorem pairwise_moveToBack {order : List String} {t : String → Nat}
    {now : Nat} {k : String}
    (hs : order.Pairwise (fun a b => t a < t b))
    (hlt : ∀ x ∈ order, t x < now) :
    ((order.filter (fun y => y != k)) ++ [k]).Pairwise
      (fun a b => (if a = k then now else t a) < (if b = k then now else t b)) := by
  rw [List.pairwise_append]
  refine ⟨?_, List.pairwise_singleton _ _, ?_⟩
  · have hsub : (order.filter (fun y => y != k)).Pairwise (fun a b => t a < t b) :=
      List.Pairwise.sublist (List.filter_sublist order) hs
    refine hsub.imp_of_mem ?_
    intro a b ha hb hab
    have hak : a ≠ k := by simpa [bne_iff_ne] using (List.mem_filter.mp ha).2
    have hbk : b ≠ k := by simpa [bne_iff_ne] using (List.mem_filter.mp hb).2
    simpa [hak, hbk] using hab
  · intro a ha b hb
    have hbk : b = k := by simpa using hb
    have hak : a ≠ k := by simpa [bne_iff_ne] using (List.mem_filter.mp ha).2
    have hao : a ∈ order := List.mem_of_mem_filter ha
    simpa [hak, hbk] using hlt a hao

/-- `LyricsCache.get` preserves the invariant, with the key's touch time
updated on a hit. -/
theorem cacheInv_get {c : LyricsCache} {t : String → Nat} {now : Nat}
    (h : CacheInv c t now) (k : String) :
    CacheInv (c.get k).2
      (if containsKey c.entries k then (fun x => if x = k then now else t x) else t)
      (now + 1) := by
  by_cases hc : containsKey c.entries k = true
  · have hkk : k ∈ c.entries.map Prod.fst := containsKey_eq_true_iff_mem_keys.mp hc
    have hko : k ∈ c.access_order := (h.mem_iff k).mp hkk
    have hnd : c.access_order.Nodup := h.order_nodup
    simp only [LyricsCache.get, hc, if_true]
    refine
      { one_le := h.one_le
        keys_nodup := h.keys_nodup
        mem_iff := ?_
        len_eq := ?_
        sorted := ?_
        touch_lt := ?_
        size_le := h.size_le }
    · intro x
      rw [h.mem_iff x]
      by_cases hxk : x = k
      · subst hxk
        simp [hko]
      · simp [List.mem_append, List.mem_filter, bne_iff_ne, hxk]
    · simp only [List.length_append, List.length_singleton,
        length_filter_ne_of_nodup hnd hko, h.len_eq]
      have : 0 < c.access_order.length := List.length_pos.mpr (List.ne_nil_of_mem hko)
      omega
    · exact pairwise_moveToBack h.sorted h.touch_lt
    · intro x hx
      rcases List.mem_append.mp hx with hxf | hxk
      · have hxo : x ∈ c.access_order := List.mem_of_mem_filter hxf
        have hxne : x ≠ k := by simpa [bne_iff_ne] using (List.mem_filter.mp hxf).2
        simpa [hxne] using Nat.lt_succ_of_lt (h.touch_lt x hxo)
      · have : x = k := by simpa using hxk
        simp [this]
  · have hc' : containsKey c.entries k = false := by simpa using hc
    simp only [LyricsCache.get, hc', Bool.false_eq_true, if_neg, if_false]
    exact h.mono (Nat.le_succ now)

/-- Pushing a fresh key at the back of a strictly-ordered queue, with its
touch time set to `now`, keeps the queue strictly ordered. -/
theorem pairwise_pushBack {order : List String} {t : String → Nat}
    {now : Nat} {k : String}
    (hs : order.Pairwise (fun a b => t a < t b))
    (hlt : ∀ x ∈ order, t x < now) (hk : k ∉ order) :
    (order ++ [k]).Pairwise
      (fun a b => (if a = k then now else t a) < (if b = k then now else t b)) := by
  rw [List.pairwise_append]
  refine ⟨?_, List.pairwise_singleton _ _, ?_⟩
  · refine hs.imp_of_mem ?_
    intro a b ha hb hab
    have hak : a ≠ k := fun he => hk (he ▸ ha)
    have hbk : b ≠ k := fun he => hk (he ▸ hb)
    simpa [hak, hbk] using hab
  · intro a ha b hb
    have hbk : b = k := by simpa using hb
    have hak : a ≠ k := fun he => hk (he ▸ ha)
    simpa [hak, hbk] using hlt a ha

/-- `LyricsCache.insert` preserves the invariant, with the inserted key's
touch time updated to `now`. -/
theorem cacheInv_insert {c : LyricsCache} {t : String → Nat} {now : Nat}
    (h : CacheInv c t now) (k : String) (v : Option String) :
    CacheInv (c.insert k v now) (fun x => if x = k then now else t x) (now + 1) := by
  by_cases hc : containsKey c.entries k = true
  · -- the key is present: overwrite in place, move to back, no eviction
    have hkk : k ∈ c.entries.map Prod.fst := containsKey_eq_true_iff_mem_keys.mp hc
    have hko : k ∈ c.access_order := (h.mem_iff k).mp hkk
    have hnd : c.access_order.Nodup := h.order_nodup
    have hins : c.insert k v now =
        { entries := c.entries.map
            (fun p => if p.1 = k then (k, ⟨v, now⟩) else p)
          access_order := (c.access_order.filter (fun y => y != k)) ++ [k]
          max_size := c.max_size } := by
      simp [LyricsCache.insert, hc]
    rw [hins]
    refine
      { one_le := h.one_le
        keys_nodup := ?_
        mem_iff := ?_
        len_eq := ?_
        sorted := ?_
        touch_lt := ?_
        size_le := ?_ }
    · rw [keys_map_overwrite]
      exact h.keys_nodup
    · intro x
      simp only [keys_map_overwrite]
      rw [h.mem_iff x]
      by_cases hxk : x = k
      · subst hxk
        simp [hko]
      · simp [List.mem_append, List.mem_filter, bne_iff_ne, hxk]
    · simp only [List.length_map, List.length_append, List.length_singleton,
        length_filter_ne_of_nodup hnd hko, h.len_eq]
      have : 0 < c.access_order.length := List.length_pos.mpr (List.ne_nil_of_mem hko)
      omega
    · exact pairwise_moveToBack h.sorted h.touch_lt
    · intro x hx
      rcases List.mem_append.mp hx with hxf | hxk
      · have hxo : x ∈ c.access_order := List.mem_of_mem_filter hxf
        have hxne : x ≠ k := by simpa [bne_iff_ne] using (List.mem_filter.mp hxf).2
        simpa [hxne] using Nat.lt_succ_of_lt (h.touch_lt x hxo)
      · have : x = k := by simpa using hxk
        simp [this]
    · simpa using h.size_le
  · -- the key is new
    have hc' : containsKey c.entries k = false := by simpa using hc
    have hknk : k ∉ c.entries.map Prod.fst := by
      intro hm
      rw [← containsKey_eq_true_iff_mem_keys] at hm
      rw [hc'] at hm
      exact absurd hm (by simp)
    have hkno : k ∉ c.access_order := fun ho => hknk ((h.mem_iff k).mpr ho)
    by_cases hlen : c.entries.length ≥ c.max_size
    · -- at capacity: evict the front of the queue first
      have hpos : 0 < c.access_order.length := by
        rw [← h.len_eq]
        exact lt_of_lt_of_le h.one_le hlen
      cases horder : c.access_order with
      | nil => rw [horder] at hpos; cases hpos
      | cons lru rest =>
        have hlruo : lru ∈ c.access_order := by
          rw [horder]
          exact List.mem_cons_self _ _
        have hlruk : lru ∈ c.entries.map Prod.fst := (h.mem_iff lru).mpr hlruo
        have hnd : c.access_order.Nodup := h.order_nodup
        have hlrurest : lru ∉ rest := by
          rw [horder] at hnd
          exact (List.nodup_cons.mp hnd).1
        have hrest : rest.Nodup := by
          rw [horder] at hnd
          exact (List.nodup_cons.mp hnd).2
        have hins : c.insert k v now =
            { entries := removeKey c.entries lru ++ [(k, ⟨v, now⟩)]
              access_order := rest ++ [k]
              max_size := c.max_size } := by
          simp [LyricsCache.insert, hc', hlen, horder,
            containsKey_removeKey_false (j := lru) hc']
        rw [hins]
        have hkeysrm : (removeKey c.entries lru).map Prod.fst =
            (c.entries.map Prod.fst).filter (fun y => y != lru) :=
          keys_removeKey c.entries lru
        have hlenrm : (removeKey c.entries lru).length = c.entries.length - 1 := by
          have h1 : (removeKey c.entries lru).length =
              ((removeKey c.entries lru).map Prod.fst).length :=
            (List.length_map _ _).symm
          rw [h1, hkeysrm, length_filter_ne_of_nodup h.keys_nodup hlruk,
            List.length_map]
        have hepos : 0 < c.entries.length := by
          rw [h.len_eq, horder]
          simp
        refine
          { one_le := h.one_le
            keys_nodup := ?_
            mem_iff := ?_
            len_eq := ?_
            sorted := ?_
            touch_lt := ?_
            size_le := ?_ }
        · rw [List.map_append, hkeysrm]
          rw [List.nodup_append]
          refine ⟨h.keys_nodup.filter _, List.nodup_singleton _, ?_⟩
          intro x hxf
          have hxk : x ∈ c.entries.map Prod.fst := List.mem_of_mem_filter hxf
          simp only [List.map_cons, List.map_nil, List.mem_singleton]
          exact fun he => hknk (he ▸ hxk)
        · intro x
          rw [List.map_append, hkeysrm]
          by_cases hxk : x = k
          · subst hxk
            simp
          · have hxrest : x ∈ rest ↔ x ∈ c.access_order ∧ x ≠ lru := by
              rw [horder]
              constructor
              · intro hx
                exact ⟨List.mem_cons_of_mem _ hx,
                  fun he => hlrurest (he ▸ hx)⟩
              · rintro ⟨hx, hne⟩
                rcases List.mem_cons.mp hx with he | hx2
                · exact absurd he hne
                · exact hx2
            have hstep : x ∈ List.filter (fun y => y != lru)
                (List.map Prod.fst c.entries) ↔ x ∈ rest := by
              rw [List.mem_filter]
              constructor
              · rintro ⟨hxk2, hbx⟩
                exact hxrest.mpr ⟨(h.mem_iff x).mp hxk2,
                  by simpa [bne_iff_ne] using hbx⟩
              · intro hxr
                obtain ⟨hxo, hxl⟩ := hxrest.mp hxr
                exact ⟨(h.mem_iff x).mpr hxo, by simpa [bne_iff_ne] using hxl⟩
            simp only [List.mem_append, List.map_cons, List.map_nil,
              List.mem_singleton, hstep, hxk, or_false]
        · simp only [List.length_append, List.length_singleton, hlenrm]
          have hol : c.access_order.length = rest.length + 1 := by
            rw [horder]
            simp
          have := h.len_eq
          omega
        · have hsrest : rest.Pairwise (fun a b => t a < t b) := by
            have := h.sorted
            rw [horder] at this
            exact (List.pairwise_cons.mp this).2
          have hltrest : ∀ x ∈ rest, t x < now := fun x hx =>
            h.touch_lt x (by rw [horder]; exact List.mem_cons_of_mem _ hx)
          have hkrest : k ∉ rest := fun hx =>
            hkno (by rw [horder]; exact List.mem_cons_of_mem _ hx)
          exact pairwise_pushBack hsrest hltrest hkrest
        · intro x hx
          rcases List.mem_append.mp hx with hxr | hxk
          · have hxo : x ∈ c.access_order := by
              rw [horder]
              exact List.mem_cons_of_mem _ hxr
            have hxne : x ≠ k := fun he => hkno (he ▸ hxo)
            simpa [hxne] using Nat.lt_succ_of_lt (h.touch_lt x hxo)
          · have : x = k := by simpa using hxk
            simp [this]
        · simp only [List.length_append, List.length_singleton, hlenrm]
          have := h.size_le
          omega
    · -- below capacity: plain append
      have hlt : c.entries.length < c.max_size := by omega
      have hins : c.insert k v now =
          { entries := c.entries ++ [(k, ⟨v, now⟩)]
            access_order := c.access_order ++ [k]
            max_size := c.max_size } := by
        simp [LyricsCache.insert, hc', hlen]
      rw [hins]
      refine
        { one_le := h.one_le
          keys_nodup := ?_
          mem_iff := ?_
          len_eq := ?_
          sorted := ?_
          touch_lt := ?_
          size_le := ?_ }
      · rw [List.map_append, List.nodup_append]
        refine ⟨h.keys_nodup, by simp, ?_⟩
        intro x hxk
        simp only [List.map_cons, List.map_nil, List.mem_singleton]
        exact fun he => hknk (he ▸ hxk)
      · intro x
        rw [List.map_append]
        simp only [List.mem_append, List.map_cons, List.map_nil,
          List.mem_singleton]
        rw [h.mem_iff x]
      · simp [h.len_eq]
      · exact pairwise_pushBack h.sorted h.touch_lt hkno
      · intro x hx
        rcases List.mem_append.mp hx with hxo | hxk
        · have hxne : x ≠ k := fun he => hkno (he ▸ hxo)
          simpa [hxne] using Nat.lt_succ_of_lt (h.touch_lt x hxo)
        · have : x = k := by simpa using hxk
          simp [this]
      · simp only [List.length_append, List.length_singleton]
        omega

/-- Running any sequence of cache operations preserves the invariant. -/
theorem cacheInv_runCacheOps {c : LyricsCache} {t : String → Nat} {now : Nat}
    (h : CacheInv c t now) (ops : List CacheOp) :
    CacheInv (runCacheOps c t now ops).1 (runCacheOps c t now ops).2
      (now + ops.length) := by
  induction ops generalizing c t now with
  | nil => simpa [runCacheOps] using h
  | cons op rest ih =>
    match op with
    | .get k =>
      have h2 := ih (cacheInv_get h k)
      simp only [runCacheOps, List.length_cons]
      rw [show now + (rest.length + 1) = now + 1 + rest.length from by omega]
      exact h2
    | .insert k v =>
      have h2 := ih (cacheInv_insert h k v)
      simp only [runCacheOps, List.length_cons]
      rw [show now + (rest.length + 1) = now + 1 + rest.length from by omega]
      exact h2

/-- The empty cache of any positive capacity satisfies the invariant. -/
theorem cacheInv_new (C : Nat) (hC : 1 ≤ C) :
    CacheInv (LyricsCache.new C) (fun _ => 0) 1 :=
  { one_le := hC
    keys_nodup := by simp [LyricsCache.new]
    mem_iff := fun x => by simp [LyricsCache.new]
    len_eq := rfl
    sorted := by simp [LyricsCache.new]
    touch_lt := fun x hx => by simp [LyricsCache.new] at hx
    size_le := by simp [LyricsCache.new] }

/-- `get` never changes the capacity field. -/
theorem max_size_get (c : LyricsCache) (k : String) :
    ((c.get k).2).max_size = c.max_size := by
  by_cases hc : containsKey c.entries k = true
  · simp [LyricsCache.get, hc]
  · have hc' : containsKey c.entries k = false := by simpa using hc
    simp [LyricsCache.get, hc']

/-- `insert` never changes the capacity field. -/
theorem max_size_insert (c : LyricsCache) (k : String) (v : Option String)
    (now : Nat) : (c.insert k v now).max_size = c.max_size := by
  by_cases hc : containsKey c.entries k = true
  · simp [LyricsCache.insert, hc]
  · have hc' : containsKey c.entries k = false := by simpa using hc
    by_cases hlen : c.entries.length ≥ c.max_size
    · cases horder : c.access_order with
      | nil => simp [LyricsCache.insert, hc', hlen, horder]
      | cons lru rest =>
        simp [LyricsCache.insert, hc', hlen, horder,
          containsKey_removeKey_false (j := lru) hc']
    · simp [LyricsCache.insert, hc', hlen]

/-- Running operations never changes the capacity field. -/
theorem max_size_runCacheOps (c : LyricsCache) (t : String → Nat) (now : Nat)
    (ops : List CacheOp) :
    (runCacheOps c t now ops).1.max_size = c.max_size := by
  induction ops generalizing c t now with
  | nil => rfl
  | cons op rest ih =>
    match op with
    | .get k =>
      simp only [runCacheOps]
      rw [ih]
      exact max_size_get c k
    | .insert k v =>
      simp only [runCacheOps]
      rw [ih]
      exact max_size_insert c k v now

/-- At a full cache satisfying the invariant, inserting a new key evicts
exactly the front of the recency queue, which is the least recently touched
of the present keys. -/
theorem insert_evicts_lru {c : LyricsCache} {t : String → Nat} {now2 : Nat}
    (h : CacheInv c t now2) (k : String) (v : Option String) (now : Nat)
    (hfull : c.entries.length ≥ c.max_size)
    (hnew : containsKey c.entries k = false) :
    ∃ lru rest, c.access_order = lru :: rest ∧
      containsKey c.entries lru = true ∧
      (∀ j, containsKey (c.insert k v now).entries j = true ↔
        (j = k ∨ (containsKey c.entries j = true ∧ j ≠ lru))) ∧
      (∀ j, containsKey c.entries j = true → t lru ≤ t j) := by
  have hpos : 0 < c.access_order.length := by
    rw [← h.len_eq]
    exact lt_of_lt_of_le h.one_le hfull
  cases horder : c.access_order with
  | nil => rw [horder] at hpos; cases hpos
  | cons lru rest =>
    have hlruo : lru ∈ c.access_order := by
      rw [horder]
      exact List.mem_cons_self _ _
    have hlruk : lru ∈ c.entries.map Prod.fst := (h.mem_iff lru).mpr hlruo
    have hnd : c.access_order.Nodup := h.order_nodup
    have hlrurest : lru ∉ rest := by
      rw [horder] at hnd
      exact (List.nodup_cons.mp hnd).1
    have hins : c.insert k v now =
        { entries := removeKey c.entries lru ++ [(k, ⟨v, now⟩)]
          access_order := rest ++ [k]
          max_size := c.max_size } := by
      simp [LyricsCache.insert, hnew, hfull, horder,
        containsKey_removeKey_false (j := lru) hnew]
    refine ⟨lru, rest, rfl, containsKey_eq_true_iff_mem_keys.mpr hlruk, ?_, ?_⟩
    · intro j
      rw [hins]
      rw [containsKey_eq_true_iff_mem_keys]
      simp only [List.map_append, keys_removeKey, List.map_cons, List.map_nil,
        List.mem_append, List.mem_filter, List.mem_singleton, bne_iff_ne]
      constructor
      · rintro (⟨hj, hne⟩ | hj)
        · exact Or.inr ⟨containsKey_eq_true_iff_mem_keys.mpr hj,
            by simpa using hne⟩
        · exact Or.inl hj
      · rintro (hj | ⟨hj, hne⟩)
        · exact Or.inr hj
        · exact Or.inl ⟨containsKey_eq_true_iff_mem_keys.mp hj, by simpa using hne⟩
    · intro j hj
      have hjo : j ∈ c.access_order :=
        (h.mem_iff j).mp (containsKey_eq_true_iff_mem_keys.mp hj)
      rw [horder] at hjo
      rcases List.mem_cons.mp hjo with he | hjr
      · exact le_of_eq (congrArg t he.symm)
      · have hsorted := h.sorted
        rw [horder] at hsorted
        exact le_of_lt (List.rel_of_pairwise_cons hsorted hjr)

/-- C2: starting from the fetcher's cache (capacity 100), no sequence of
get/insert operations ever pushes the entry count above 100; and for any
positive capacity, whenever an insert of a new key hits a full cache, the
single evicted key is the front of the recency queue — the key least recently
touched by any get or insert among the keys present at that moment (the run
records each key's last-touch time alongside the cache). -/
theorem lyricsCache_lru_spec :
    (∀ ops : List CacheOp,
        (runCacheOps LyricsFetcher.initCache (fun _ => 0) 1 ops).1.entries.length ≤ 100) ∧
    (∀ (C : Nat) (ops : List CacheOp) (k : String) (v : Option String) (now : Nat),
        1 ≤ C →
        (runCacheOps (LyricsCache.new C) (fun _ => 0) 1 ops).1.entries.length ≥ C →
        containsKey (runCacheOps (LyricsCache.new C) (fun _ => 0) 1 ops).1.entries k
          = false →
        ∃ lru rest,
          (runCacheOps (LyricsCache.new C) (fun _ => 0) 1 ops).1.access_order =
            lru :: rest ∧
          containsKey (runCacheOps (LyricsCache.new C) (fun _ => 0) 1 ops).1.entries
            lru = true ∧
          (∀ j, containsKey
              (((runCacheOps (LyricsCache.new C) (fun _ => 0) 1 ops).1).insert
                k v now).entries j = true ↔
            (j = k ∨
              (containsKey
                (runCacheOps (LyricsCache.new C) (fun _ => 0) 1 ops).1.entries j
                = true ∧ j ≠ lru))) ∧
          (∀ j, containsKey
              (runCacheOps (LyricsCache.new C) (fun _ => 0) 1 ops).1.entries j
              = true →
            (runCacheOps (LyricsCache.new C) (fun _ => 0) 1 ops).2 lru ≤
              (runCacheOps (LyricsCache.new C) (fun _ => 0) 1 ops).2 j)) := by
  constructor
  · intro ops
    have hinv := cacheInv_runCacheOps (cacheInv_new 100 (by omega)) ops
    have hms := max_size_runCacheOps (LyricsCache.new 100) (fun _ => 0) 1 ops
    have := hinv.size_le
    rw [hms] at this
    exact this
  · intro C ops k v now hC hfull hnew
    have hinv := cacheInv_runCacheOps (cacheInv_new C hC) ops
    have hms := max_size_runCacheOps (LyricsCache.new C) (fun _ => 0) 1 ops
    exact insert_evicts_lru hinv k v now (by rw [hms]; exact hfull) hnew

/-- C2 (witness): the eviction conjunct applied to a concrete capacity-2 run:
after inserting keys `a` and `b`, inserting the new key `c` evicts exactly
`a`, the least recently touched key. -/
theorem lyricsCache_lru_spec_witness :
    ∃ lru rest,
      (runCacheOps (LyricsCache.new 2) (fun _ => 0) 1
          [CacheOp.insert "a" none, CacheOp.insert "b" none]).1.access_order =
        lru :: rest ∧
      containsKey (runCacheOps (LyricsCache.new 2) (fun _ => 0) 1
          [CacheOp.insert "a" none, CacheOp.insert "b" none]).1.entries lru = true ∧
      (∀ j, containsKey
          (((runCacheOps (LyricsCache.new 2) (fun _ => 0) 1
              [CacheOp.insert "a" none, CacheOp.insert "b" none]).1).insert
            "c" none 3).entries j = true ↔
        (j = "c" ∨
          (containsKey (runCacheOps (LyricsCache.new 2) (fun _ => 0) 1
              [CacheOp.insert "a" none, CacheOp.insert "b" none]).1.entries j
            = true ∧ j ≠ lru))) ∧
      (∀ j, containsKey (runCacheOps (LyricsCache.new 2) (fun _ => 0) 1
          [CacheOp.insert "a" none, CacheOp.insert "b" none]).1.entries j = true →
        (runCacheOps (LyricsCache.new 2) (fun _ => 0) 1
            [CacheOp.insert "a" none, CacheOp.insert "b" none]).2 lru ≤
          (runCacheOps (LyricsCache.new 2) (fun _ => 0) 1
              [CacheOp.insert "a" none, CacheOp.insert "b" none]).2 j) :=
  lyricsCache_lru_spec.2 2 [CacheOp.insert "a" none, CacheOp.insert "b" none]
    "c" none 3 (by omega) (by decide) (by decide)
